import Mathlib

/-!
Verification of the permission-cascading folder-sharing and ordering model of the
sws-todo application, shallowly embedded from the TypeScript sources
(src/hooks/useFolders.ts, src/hooks/useTodos.ts, src/hooks/useBulkActions.ts,
src/hooks/useTodoOrder.ts, src/pages/TodoList.tsx) over the row types declared in
src/types/supabase.ts and the migration 20250206222050_purple_cherry.sql.

Conventions of the embedding:
* Database rows become Lean structures; nullable array columns become
  Option (List String), mirroring the generated row type string[] | null.
* JavaScript Array.from(new Set([...xs, u])) keeps first-occurrence order and is
  embedded as jsSetAdd (first-occurrence deduplication of xs ++ [u]).
* A supabase-js update call serializes its argument object with JSON.stringify,
  which drops object keys whose value is undefined; such keys therefore leave the
  corresponding column untouched.  This matters in shareFolder: for a view share
  the updates object carries no can_edit key, so the todos update writes only
  shared_with.
* Backend writes can fail; each operation takes explicit failure flags (one per
  backend call, in program order) and returns the resulting state together with a
  success flag.  A later call is not reached when an earlier one throws.
-/

/-- Row of the todos table (src/types/supabase.ts, todos Row). -/
structure Todo where
  id : String
  created_at : String
  title : String
  description : Option String
  is_complete : Bool
  user_id : String
  folder_id : Option String
  shared_with : Option (List String)
  can_edit : Option (List String)
deriving Repr, DecidableEq

/-- Row of the todo_folders table (src/types/supabase.ts, todo_folders Row). -/
structure Folder where
  id : String
  created_at : String
  name : String
  description : Option String
  user_id : String
  shared_with : Option (List String)
  can_edit : Option (List String)
deriving Repr, DecidableEq

/-- Permission levels (src/types/folder.ts): view, edit or manage. -/
inductive Permission where
  | view
  | edit
  | manage
deriving Repr, DecidableEq

/-- Backend state touched by the folder operations: the todos and todo_folders
tables.  The local React collections mirror these rows, so the claims about the
Entity Store and about the database are both read off this state. -/
structure DB where
  todos : List Todo
  folders : List Folder
deriving Repr, DecidableEq

/-- The JavaScript null-coalescing pattern xs || [] applied to a nullable
array column. -/
def listOr (xs : Option (List String)) : List String :=
  xs.getD []

/-- First-occurrence deduplication with an accumulator of already-seen
elements; dedupFirstAux seen l keeps the elements of l not in seen, first
occurrence winning.  This is the iteration order of a JavaScript Set. -/
def dedupFirstAux (seen : List String) : List String → List String
  | [] => []
  | x :: xs =>
    if x ∈ seen then dedupFirstAux seen xs
    else x :: dedupFirstAux (x :: seen) xs

/-- First-occurrence deduplication, the order in which new Set(l) iterates. -/
def dedupFirst (l : List String) : List String :=
  dedupFirstAux [] l

/-- Embedding of Array.from(new Set([...xs, u])): append u and deduplicate
keeping first occurrences. -/
def jsSetAdd (xs : List String) (u : String) : List String :=
  dedupFirst (xs ++ [u])

/-- Whether the permission grants edit rights: the test
permission === edit || permission === manage from useFolders.ts. -/
def Permission.grantsEdit : Permission → Bool
  | .view => false
  | .edit => true
  | .manage => true

/-- Embedding of shareFolder (src/hooks/useFolders.ts, lines 237-299).
The updates object always carries shared_with := jsSetAdd of the folder
argument and the recipient; it carries can_edit only when the permission is
edit or manage.  The folder row update writes exactly the keys present in
updates; the subsequent todos update writes shared_with and, because an
undefined can_edit value is dropped by JSON serialization, writes can_edit
only when the permission is edit or manage.  failFolder injects a failure of
the folder-row update (the todos update is then never issued); failTodos
injects a failure of the todos update (the folder-row write stays applied,
which is the known non-atomicity gap).  Returns the final state and whether
the whole operation succeeded. -/
def shareFolder (db : DB) (folder : Folder) (userId : String)
    (permission : Permission) (failFolder failTodos : Bool) : DB × Bool :=
  let newShared : List String := jsSetAdd (listOr folder.shared_with) userId
  let newCanEdit : List String := jsSetAdd (listOr folder.can_edit) userId
  if failFolder then (db, false)
  else
    let db1 : DB :=
      { db with
        folders := db.folders.map fun f =>
          if f.id = folder.id then
            { f with
              shared_with := some newShared
              can_edit := if permission.grantsEdit then some newCanEdit else f.can_edit }
          else f }
    if failTodos then (db1, false)
    else
      let db2 : DB :=
        { db1 with
          todos := db1.todos.map fun t =>
            if t.folder_id = some folder.id then
              { t with
                shared_with := some newShared
                can_edit := if permission.grantsEdit then some newCanEdit else t.can_edit }
            else t }
      (db2, true)

/-- Embedding of deleteFolder (src/hooks/useFolders.ts, lines 204-229): first
update todos with folder_id = folder.id to folder_id = null, then delete the
folder row (and drop it from the local folders collection).  failUpdate
injects a failure of the todos update (the folder delete is then never
issued); failDelete injects a failure of the folder delete. -/
def deleteFolder (db : DB) (folder : Folder)
    (failUpdate failDelete : Bool) : DB × Bool :=
  if failUpdate then (db, false)
  else
    let db1 : DB :=
      { db with
        todos := db.todos.map fun t =>
          if t.folder_id = some folder.id then { t with folder_id := none } else t }
    if failDelete then (db1, false)
    else
      ({ db1 with folders := db1.folders.filter fun f => f.id ≠ folder.id }, true)

/-! ### Optimistic mutation pipeline (src/hooks/useTodos.ts, src/hooks/useBulkActions.ts)

Each operation is embedded as a function of the Entity Store (the todos array
held by setTodos) plus a failure flag for its backend write; it returns the
settled store and a success flag.  A failed operation additionally emits a
failure toast, which the code does in every catch branch; the toast itself is
not part of the state.  The optimistic apply and rollback steps are named
functions so that their frame properties can be stated directly. -/

/-- Optimistic step of toggleTodo (useTodos.ts, lines 205-209): flip
is_complete of the entry whose id matches the argument. -/
def toggleApply (todo : Todo) (current : List Todo) : List Todo :=
  current.map fun t =>
    if t.id = todo.id then { t with is_complete := !t.is_complete } else t

/-- Rollback step of toggleTodo (useTodos.ts, lines 219-223): restore
is_complete to the value captured in the todo argument. -/
def toggleRollback (todo : Todo) (current : List Todo) : List Todo :=
  current.map fun t =>
    if t.id = todo.id then { t with is_complete := todo.is_complete } else t

/-- Embedding of toggleTodo (useTodos.ts, lines 203-229). -/
def toggleTodo (todo : Todo) (fail : Bool) (store : List Todo) : List Todo × Bool :=
  let store1 := toggleApply todo store
  if fail then (toggleRollback todo store1, false) else (store1, true)

/-- Optimistic step of updateTodo (useTodos.ts, lines 252-256): replace the
entry whose id matches by the argument record. -/
def updateApply (todo : Todo) (current : List Todo) : List Todo :=
  current.map fun t => if t.id = todo.id then todo else t

/-- Rollback step of updateTodo (useTodos.ts, lines 270-274).  The source
spreads the current entry and rewrites folder_id with its own current value,
so this step is the identity on every entry; it restores nothing. -/
def updateRollback (todo : Todo) (current : List Todo) : List Todo :=
  current.map fun t =>
    if t.id = todo.id then { t with folder_id := t.folder_id } else t

/-- Embedding of updateTodo (useTodos.ts, lines 250-281). -/
def updateTodo (todo : Todo) (fail : Bool) (store : List Todo) : List Todo × Bool :=
  let store1 := updateApply todo store
  if fail then (updateRollback todo store1, false) else (store1, true)

/-- Embedding of deleteTodo (useTodos.ts, lines 235-244): the backend delete
is issued first; the local store is filtered only after it succeeds. -/
def deleteTodo (id : String) (fail : Bool) (store : List Todo) : List Todo × Bool :=
  if fail then (store, false)
  else (store.filter fun t => t.id ≠ id, true)

/-- Optimistic step of handleBulkMove (useBulkActions.ts, lines 75-81): set
folder_id of every selected entry to the target. -/
def bulkMoveApply (selected : List String) (folderId : Option String)
    (current : List Todo) : List Todo :=
  current.map fun t =>
    if t.id ∈ selected then { t with folder_id := folderId } else t

/-- Rollback step of handleBulkMove (useBulkActions.ts, lines 91-97).  The
source rewrites folder_id of each selected entry with its own current value,
so this step is the identity on every entry; it restores nothing. -/
def bulkMoveRollback (selected : List String) (current : List Todo) : List Todo :=
  current.map fun t =>
    if t.id ∈ selected then { t with folder_id := t.folder_id } else t

/-- Embedding of handleBulkMove (useBulkActions.ts, lines 72-106). -/
def handleBulkMove (selected : List String) (folderId : Option String)
    (fail : Bool) (store : List Todo) : List Todo × Bool :=
  let store1 := bulkMoveApply selected folderId store
  if fail then (bulkMoveRollback selected store1, false) else (store1, true)

/-- Embedding of handleBulkDelete (useBulkActions.ts, lines 111-124): the
backend delete is issued with no optimistic step; on success the code only
clears the selection and toasts, leaving the todos collection untouched, and
on failure it only toasts.  The store is therefore returned unchanged in both
branches. -/
def handleBulkDelete (selected : List String) (fail : Bool)
    (store : List Todo) : List Todo × Bool :=
  if fail then (store, false) else (store, true)

/-- Optimistic step of handleBulkToggleComplete (useBulkActions.ts, lines
133-139): set is_complete of every selected entry to the target value. -/
def bulkCompleteApply (selected : List String) (complete : Bool)
    (current : List Todo) : List Todo :=
  current.map fun t =>
    if t.id ∈ selected then { t with is_complete := complete } else t

/-- Rollback step of handleBulkToggleComplete (useBulkActions.ts, lines
149-155): set is_complete of every selected entry to the negation of the
target, regardless of what the entry held before the optimistic step. -/
def bulkCompleteRollback (selected : List String) (complete : Bool)
    (current : List Todo) : List Todo :=
  current.map fun t =>
    if t.id ∈ selected then { t with is_complete := !complete } else t

/-- Embedding of handleBulkToggleComplete (useBulkActions.ts, lines 130-164). -/
def handleBulkToggleComplete (selected : List String) (complete : Bool)
    (fail : Bool) (store : List Todo) : List Todo × Bool :=
  let store1 := bulkCompleteApply selected complete store
  if fail then (bulkCompleteRollback selected complete store1, false)
  else (store1, true)

/-! ### Realtime merge layer (src/hooks/useTodos.ts, lines 117-145) -/

/-- Kind of a postgres_changes event. -/
inductive RealtimeEventType where
  | insert
  | update
  | delete
deriving Repr, DecidableEq

/-- A record field of a v2 postgres_changes payload: either a full row, or
the empty object.  The v2 client fills the new field with the full row for
insert and update events and with the empty object for delete events; either
value is a JavaScript object and therefore truthy, so a truthiness test on
the field always passes. -/
inductive PayloadRecord where
  | row (t : Todo)
  | empty
deriving Repr, DecidableEq

/-- Reading the id property off a payload record, as JavaScript does: the
row id, or undefined (none) for the empty object. -/
def PayloadRecord.jsId : PayloadRecord → Option String
  | PayloadRecord.row t => some t.id
  | PayloadRecord.empty => none

/-- A postgres_changes payload for the todos table as the v2 client delivers
it: insert and update events carry the full new row in the new field; delete
events carry the empty object there, with the old keys in the old field. -/
structure RealtimePayload where
  eventType : RealtimeEventType
  new : PayloadRecord
  old : PayloadRecord
deriving Repr, DecidableEq

/-- The insert-or-update merge of the subscription handler (useTodos.ts,
lines 133-141) at the level of full rows: if an entry with the same id
exists, replace every matching entry in place; otherwise append the row. -/
def mergeTodoEvent (current : List Todo) (row : Todo) : List Todo :=
  if current.any fun t => t.id = row.id then
    current.map fun t => if t.id = row.id then row else t
  else current ++ [row]

/-- Embedding of the subscription handler (useTodos.ts, lines 131-143) over
the runtime store, whose entries are the objects the handler has put there.
The guard if (payload.new) tests the truthiness of the new field, which in
the v2 client is always an object (the empty one for delete events) and
hence always truthy, so the body runs for every event: it scans for an entry
whose id property equals payload.new.id (undefined for the empty object,
which no real row matches), replaces every match in place, and appends
payload.new when there is none. -/
def handleTodoEvent (current : List PayloadRecord) (payload : RealtimePayload) :
    List PayloadRecord :=
  if current.any fun e => e.jsId = payload.new.jsId then
    current.map fun e => if e.jsId = payload.new.jsId then payload.new else e
  else current ++ [payload.new]

/-! ### Order persistence and sort application -/

/-- JavaScript Array.prototype.indexOf: index of the first occurrence, or -1
when absent. -/
def jsIndexOf : List String → String → Int
  | [], _ => -1
  | x :: xs, y =>
    if x = y then 0
    else
      let r := jsIndexOf xs y
      if r = -1 then -1 else r + 1

/-- Scope key of the active view (TodoList.tsx, line 124):
selectedFolderId || root. -/
def scopeKey (selectedFolderId : Option String) : String :=
  selectedFolderId.getD "root"

/-- Order list of the active scope (TodoList.tsx, line 125):
todoOrder[folderId] || [], over the order map held as an association list. -/
def scopeOrder (todoOrder : List (String × List String))
    (selectedFolderId : Option String) : List String :=
  (todoOrder.lookup (scopeKey selectedFolderId)).getD []

/-- The sort comparator of filteredTodos (TodoList.tsx, lines 123-132). -/
def todoCompare (order : List String) (a b : Todo) : Int :=
  let indexA := jsIndexOf order a.id
  let indexB := jsIndexOf order b.id
  if indexA = -1 ∧ indexB = -1 then 0
  else if indexA = -1 then 1
  else if indexB = -1 then -1
  else indexA - indexB

/-- The sort application of filteredTodos: Array.prototype.sort is stable
(required since ES2019) and the comparator induces a total preorder, so the
result is the stable sort by the comparator, modelled by insertion sort with
the relation that the comparator is nonpositive. -/
def sortTodos (order : List String) (l : List Todo) : List Todo :=
  List.insertionSort (fun a b => todoCompare order a b ≤ 0) l

/-! ### Preference persistence (src/hooks/useTodoOrder.ts) -/

/-- A value stored under a key of the per-user preferences document: the
todoOrder map, or any other JSON value (abstracted as a string). -/
inductive PrefValue where
  | orderMap (m : List (String × List String))
  | other (s : String)
deriving Repr, DecidableEq

/-- Row of the todo_user_preferences table: a user id and the jsonb
preferences document, held as an association list of keys. -/
structure PrefRow where
  user_id : String
  preferences : List (String × PrefValue)
deriving Repr, DecidableEq

/-- Postgres upsert on todo_user_preferences keyed by user_id: on conflict
the given columns overwrite the existing row, so the whole preferences
document is replaced by the supplied one; otherwise the row is inserted. -/
def upsertRow (tbl : List PrefRow) (row : PrefRow) : List PrefRow :=
  if tbl.any fun r => r.user_id = row.user_id then
    tbl.map fun r =>
      if r.user_id = row.user_id then { r with preferences := row.preferences } else r
  else tbl ++ [row]

/-- Embedding of the debounced saveTodoOrder write (useTodoOrder.ts, lines
87-105): upsert a row whose preferences document is exactly the object with
the single key todoOrder mapped to the new order map. -/
def saveTodoOrder (tbl : List PrefRow) (userId : String)
    (newOrder : List (String × List String)) : List PrefRow :=
  upsertRow tbl
    { user_id := userId
      preferences := [("todoOrder", PrefValue.orderMap newOrder)] }

/-! ### Lemmas about the JavaScript set model -/

theorem mem_dedupFirstAux (x : String) (l : List String) :
    ∀ seen, x ∈ dedupFirstAux seen l ↔ x ∈ l ∧ x ∉ seen := by
  induction l with
  | nil => intro seen; simp [dedupFirstAux]
  | cons y ys ih =>
    intro seen
    by_cases hy : y ∈ seen
    · rw [dedupFirstAux, if_pos hy, ih seen]
      simp only [List.mem_cons]
      constructor
      · rintro ⟨h1, h2⟩; exact ⟨Or.inr h1, h2⟩
      · rintro ⟨h1 | h1, h2⟩
        · exact absurd (h1 ▸ hy) h2
        · exact ⟨h1, h2⟩
    · rw [dedupFirstAux, if_neg hy]
      simp only [List.mem_cons, ih (y :: seen)]
      constructor
      · rintro (h | ⟨h1, h2⟩)
        · exact ⟨Or.inl h, h ▸ hy⟩
        · exact ⟨Or.inr h1, fun hs => h2 (Or.inr hs)⟩
      · rintro ⟨h1 | h1, h2⟩
        · exact Or.inl h1
        · by_cases hxy : x = y
          · exact Or.inl hxy
          · exact Or.inr ⟨h1, fun hs => hs.elim hxy h2⟩

theorem nodup_dedupFirstAux (l : List String) :
    ∀ seen, (dedupFirstAux seen l).Nodup := by
  induction l with
  | nil => intro seen; simp [dedupFirstAux]
  | cons y ys ih =>
    intro seen
    by_cases hy : y ∈ seen
    · rw [dedupFirstAux, if_pos hy]; exact ih seen
    · rw [dedupFirstAux, if_neg hy]
      refine List.nodup_cons.mpr ⟨fun hmem => ?_, ih (y :: seen)⟩
      exact ((mem_dedupFirstAux y ys (y :: seen)).mp hmem).2 (List.mem_cons_self y seen)

theorem dedupFirstAux_append (l : List String) (u : String) :
    ∀ seen, dedupFirstAux seen (l ++ [u]) =
      dedupFirstAux seen l ++ (if u ∈ seen ∨ u ∈ l then [] else [u]) := by
  induction l with
  | nil =>
    intro seen
    by_cases h : u ∈ seen <;> simp [dedupFirstAux, h]
  | cons y ys ih =>
    intro seen
    by_cases hy : y ∈ seen
    · rw [List.cons_append, dedupFirstAux, if_pos hy, ih seen, dedupFirstAux, if_pos hy]
      have hcond : (u ∈ seen ∨ u ∈ ys) ↔ (u ∈ seen ∨ u ∈ y :: ys) := by
        simp only [List.mem_cons]
        constructor
        · rintro (h | h)
          · exact Or.inl h
          · exact Or.inr (Or.inr h)
        · rintro (h | h | h)
          · exact Or.inl h
          · exact Or.inl (h ▸ hy)
          · exact Or.inr h
      rw [if_congr hcond rfl rfl]
    · rw [List.cons_append, dedupFirstAux, if_neg hy, dedupFirstAux, if_neg hy,
        ih (y :: seen), List.cons_append]
      have hcond : (u ∈ y :: seen ∨ u ∈ ys) ↔ (u ∈ seen ∨ u ∈ y :: ys) := by
        simp only [List.mem_cons]
        constructor
        · rintro ((h | h) | h)
          · exact Or.inr (Or.inl h)
          · exact Or.inl h
          · exact Or.inr (Or.inr h)
        · rintro (h | h | h)
          · exact Or.inl (Or.inr h)
          · exact Or.inl (Or.inl h)
          · exact Or.inr h
      rw [if_congr hcond rfl rfl]

theorem dedupFirstAux_eq_self (l : List String) :
    ∀ seen, l.Nodup → (∀ x ∈ l, x ∉ seen) → dedupFirstAux seen l = l := by
  induction l with
  | nil => intro seen _ _; rfl
  | cons y ys ih =>
    intro seen hnd hdisj
    rw [dedupFirstAux, if_neg (hdisj y (List.mem_cons_self y ys))]
    have hys : dedupFirstAux (y :: seen) ys = ys := by
      refine ih (y :: seen) (List.nodup_cons.mp hnd).2 fun x hx hmem => ?_
      rcases List.mem_cons.mp hmem with h | h
      · exact (List.nodup_cons.mp hnd).1 (h ▸ hx)
      · exact hdisj x (List.mem_cons_of_mem y hx) h
    rw [hys]

theorem mem_jsSetAdd (x : String) (xs : List String) (u : String) :
    x ∈ jsSetAdd xs u ↔ x ∈ xs ∨ x = u := by
  rw [jsSetAdd, dedupFirst, mem_dedupFirstAux]
  simp

theorem self_mem_jsSetAdd (xs : List String) (u : String) : u ∈ jsSetAdd xs u :=
  (mem_jsSetAdd u xs u).mpr (Or.inr rfl)

theorem nodup_jsSetAdd (xs : List String) (u : String) : (jsSetAdd xs u).Nodup :=
  nodup_dedupFirstAux (xs ++ [u]) []

/-- Adding the same user twice produces the same set as adding once. -/
theorem jsSetAdd_idem (xs : List String) (u : String) :
    jsSetAdd (jsSetAdd xs u) u = jsSetAdd xs u := by
  have hmem : u ∈ jsSetAdd xs u := self_mem_jsSetAdd xs u
  rw [jsSetAdd, dedupFirst, dedupFirstAux_append]
  rw [if_pos (Or.inr hmem), List.append_nil]
  exact dedupFirstAux_eq_self (jsSetAdd xs u) [] (nodup_jsSetAdd xs u)
    (fun x _ h => (List.not_mem_nil x) h)

/-- Adding an already-present user to a duplicate-free set leaves it
unchanged. -/
theorem jsSetAdd_eq_self (xs : List String) (u : String)
    (hnd : xs.Nodup) (hu : u ∈ xs) : jsSetAdd xs u = xs := by
  rw [jsSetAdd, dedupFirst, dedupFirstAux_append, if_pos (Or.inr hu), List.append_nil]
  exact dedupFirstAux_eq_self xs [] hnd (fun x _ h => (List.not_mem_nil x) h)

/-! ### Lemmas about shareFolder -/

/-- The folder record as it stands after a successful share: this is the
record the local setFolders state update produces for the shared folder, and
hence the record a caller passes on a subsequent share of the same folder. -/
def sharedFolderRecord (folder : Folder) (userId : String) (perm : Permission) : Folder :=
  { folder with
    shared_with := some (jsSetAdd (listOr folder.shared_with) userId)
    can_edit :=
      if perm.grantsEdit then some (jsSetAdd (listOr folder.can_edit) userId)
      else folder.can_edit }

/-- Normal form of a shareFolder run with no injected failures. -/
theorem shareFolder_succ (db : DB) (folder : Folder) (userId : String)
    (perm : Permission) :
    shareFolder db folder userId perm false false =
      (DB.mk
        (db.todos.map fun t =>
          if t.folder_id = some folder.id then
            { t with
              shared_with := some (jsSetAdd (listOr folder.shared_with) userId)
              can_edit :=
                if perm.grantsEdit then
                  some (jsSetAdd (listOr folder.can_edit) userId)
                else t.can_edit }
          else t)
        (db.folders.map fun f =>
          if f.id = folder.id then
            { f with
              shared_with := some (jsSetAdd (listOr folder.shared_with) userId)
              can_edit :=
                if perm.grantsEdit then
                  some (jsSetAdd (listOr folder.can_edit) userId)
                else f.can_edit }
          else f), true) := rfl

/-- A successful run has both failure flags off. -/
theorem shareFolder_succ_flags (db : DB) (folder : Folder) (userId : String)
    (perm : Permission) (fF fT : Bool)
    (hsucc : (shareFolder db folder userId perm fF fT).2 = true) :
    fF = false ∧ fT = false := by
  cases fF <;> cases fT <;> simp [shareFolder] at hsucc <;> simp

/-! ### Concrete sample values used by the witnesses -/

def sampleTodo : Todo :=
  { id := "t1", created_at := "2025-01-01", title := "Milk",
    description := none, is_complete := false, user_id := "u1",
    folder_id := some "f1", shared_with := some [], can_edit := some [] }

def sampleFolder : Folder :=
  { id := "f1", created_at := "2025-01-01", name := "Groceries",
    description := none, user_id := "u1",
    shared_with := some [], can_edit := some [] }

def sampleDB : DB :=
  { todos := [sampleTodo], folders := [sampleFolder] }

/-! ### Claim C1 -/

/-- Claim C1: if shareFolder(F, U, perm) succeeds then every todo with
folder_id = F.id contains U in shared_with (and in can_edit when perm grants
edit); the folder rows with id F.id likewise contain U; the sets are real
sets (adding an already-present U to a duplicate-free set is a no-op), and
running the share a second time, with the folder record the first run
produced, changes nothing. -/
theorem C1_shareFolder_cascade
    (db : DB) (folder : Folder) (userId : String) (perm : Permission)
    (fF fT : Bool)
    (hsucc : (shareFolder db folder userId perm fF fT).2 = true) :
    (∀ t ∈ (shareFolder db folder userId perm fF fT).1.todos,
        t.folder_id = some folder.id →
          userId ∈ listOr t.shared_with ∧
          (perm.grantsEdit = true → userId ∈ listOr t.can_edit)) ∧
    (∀ f ∈ (shareFolder db folder userId perm fF fT).1.folders,
        f.id = folder.id →
          userId ∈ listOr f.shared_with ∧
          (perm.grantsEdit = true → userId ∈ listOr f.can_edit)) ∧
    (∀ xs : List String, xs.Nodup → userId ∈ xs → jsSetAdd xs userId = xs) ∧
    shareFolder (shareFolder db folder userId perm fF fT).1
        (sharedFolderRecord folder userId perm) userId perm false false =
      ((shareFolder db folder userId perm fF fT).1, true) := by
  obtain ⟨hF, hT⟩ := shareFolder_succ_flags db folder userId perm fF fT hsucc
  subst hF; subst hT
  rw [shareFolder_succ]
  dsimp only
  refine ⟨?_, ?_, ?_, ?_⟩
  · intro t ht hfid
    rcases List.mem_map.mp ht with ⟨t0, _, rfl⟩
    by_cases h0 : t0.folder_id = some folder.id
    · rw [if_pos h0]
      constructor
      · exact self_mem_jsSetAdd _ _
      · intro hem
        simp only [hem, if_true, listOr, Option.getD]
        exact self_mem_jsSetAdd _ _
    · rw [if_neg h0] at hfid
      exact absurd hfid h0
  · intro f hf hid
    rcases List.mem_map.mp hf with ⟨f0, _, rfl⟩
    by_cases h0 : f0.id = folder.id
    · rw [if_pos h0]
      constructor
      · exact self_mem_jsSetAdd _ _
      · intro hem
        simp only [hem, if_true, listOr, Option.getD]
        exact self_mem_jsSetAdd _ _
    · rw [if_neg h0] at hid
      exact absurd hid h0
  · exact fun xs hnd hu => jsSetAdd_eq_self xs userId hnd hu
  · rw [shareFolder_succ]
    refine Prod.ext ?_ rfl
    dsimp only
    refine congrArg₂ DB.mk ?_ ?_
    · rw [List.map_map]
      apply List.map_congr_left
      intro t _
      dsimp only [Function.comp]
      by_cases ht : t.folder_id = some folder.id
      · rw [if_pos ht]
        cases hem : perm.grantsEdit <;>
          cases t <;>
            simp [sharedFolderRecord, ht, hem, listOr, jsSetAdd_idem]
      · rw [if_neg ht]
        simp [sharedFolderRecord, ht]
    · rw [List.map_map]
      apply List.map_congr_left
      intro f _
      dsimp only [Function.comp]
      by_cases hf : f.id = folder.id
      · rw [if_pos hf]
        cases hem : perm.grantsEdit <;>
          cases f <;>
            simp [sharedFolderRecord, hf, hem, listOr, jsSetAdd_idem]
      · rw [if_neg hf]
        simp [sharedFolderRecord, hf]

/-- Witness for C1 at a concrete input: sharing the sample folder with user
u2 at edit permission puts u2 into the contained todo. -/
theorem C1_shareFolder_cascade_witness :
    "u2" ∈ listOr (({ sampleTodo with
        shared_with := some ["u2"], can_edit := some ["u2"] } : Todo).shared_with) ∧
    (Permission.edit.grantsEdit = true →
      "u2" ∈ listOr (({ sampleTodo with
        shared_with := some ["u2"], can_edit := some ["u2"] } : Todo).can_edit)) :=
  (C1_shareFolder_cascade sampleDB sampleFolder "u2" Permission.edit false false
      (by decide)).1
    { sampleTodo with shared_with := some ["u2"], can_edit := some ["u2"] }
    (by decide) (by decide)

/-! ### Claim C2 -/

/-- A todo whose can_edit diverges from its folder. -/
def divergentTodo : Todo :=
  { sampleTodo with can_edit := some ["x"] }

def divergentDB : DB :=
  { todos := [divergentTodo], folders := [sampleFolder] }

/-- Counterexample to claim C2: sharing at view permission succeeds, yet the
contained todo keeps its divergent can_edit (the update payload carries no
can_edit key because the updates object leaves it undefined), so the todo
can_edit does not equal the folder resulting can_edit. -/
theorem C2_view_share_counterexample :
    (shareFolder divergentDB sampleFolder "u2" Permission.view false false).2 = true ∧
    (shareFolder divergentDB sampleFolder "u2" Permission.view false false).1.todos.map
        (fun t => t.can_edit) = [some ["x"]] ∧
    (shareFolder divergentDB sampleFolder "u2" Permission.view false false).1.folders.map
        (fun f => f.can_edit) = [some []] ∧
    (some ["x"] : Option (List String)) ≠ some [] := by decide

/-- Claim C2 amended: after a successful shareFolder, every todo of the
folder has its shared_with overwritten with the folder resulting shared_with
for every permission, but its can_edit is overwritten with the folder
resulting can_edit only when the permission grants edit; at view permission
the todos keep their own can_edit, so todo-level can_edit divergence
survives a view share. -/
theorem C2_share_overwrite
    (db : DB) (folder : Folder) (userId : String) (perm : Permission)
    (fF fT : Bool)
    (hsucc : (shareFolder db folder userId perm fF fT).2 = true) :
    (shareFolder db folder userId perm fF fT).1.todos =
      db.todos.map (fun t =>
        if t.folder_id = some folder.id then
          { t with
            shared_with := some (jsSetAdd (listOr folder.shared_with) userId)
            can_edit :=
              if perm.grantsEdit then
                some (jsSetAdd (listOr folder.can_edit) userId)
              else t.can_edit }
        else t) ∧
    (perm = Permission.view →
      (shareFolder db folder userId perm fF fT).1.todos.map (fun t => t.can_edit) =
        db.todos.map (fun t => t.can_edit)) := by
  obtain ⟨hF, hT⟩ := shareFolder_succ_flags db folder userId perm fF fT hsucc
  subst hF; subst hT
  rw [shareFolder_succ]
  refine ⟨rfl, ?_⟩
  rintro rfl
  dsimp only
  rw [List.map_map]
  apply List.map_congr_left
  intro t _
  by_cases ht : t.folder_id = some folder.id <;>
    simp [Function.comp, ht, Permission.grantsEdit]

/-- Witness for the amended C2 at a concrete input: a view share leaves the
can_edit column of every todo untouched. -/
theorem C2_share_overwrite_witness :
    (shareFolder divergentDB sampleFolder "u2" Permission.view false false).1.todos.map
        (fun t => t.can_edit) =
      divergentDB.todos.map (fun t => t.can_edit) :=
  (C2_share_overwrite divergentDB sampleFolder "u2" Permission.view false false
      (by decide)).2 rfl

/-! ### Claim C3 -/

/-- The stored todo before the mutation. -/
def oldTodo : Todo :=
  { id := "t1", created_at := "2025-01-01", title := "old",
    description := none, is_complete := false, user_id := "u1",
    folder_id := none, shared_with := some [], can_edit := some [] }

/-- The edited record handed to updateTodo. -/
def newTodo : Todo :=
  { oldTodo with title := "new" }

def todoA : Todo :=
  { oldTodo with id := "a", title := "A", is_complete := false }

def todoB : Todo :=
  { oldTodo with id := "b", title := "B", is_complete := true }

/-- Claim C3 is violated by the code: when the backend write of updateTodo
fails, the store keeps the optimistic record (the rollback step rewrites
folder_id with its own current value, a no-op), instead of the captured
pre-mutation values; and when a bulk completion toggle over todos with mixed
initial values fails, the rollback forces the negated target on all of them,
so the entry that already held the target value does not get its pre-mutation
value back.  Both runs do emit the failure (the success flag is false). -/
theorem C3_failed_writes_keep_wrong_values :
    (updateTodo newTodo true [oldTodo]).1 = [newTodo] ∧
    (updateTodo newTodo true [oldTodo]).2 = false ∧
    newTodo.title = "new" ∧ oldTodo.title = "old" ∧
    (handleBulkToggleComplete ["a", "b"] true true [todoA, todoB]).1 =
      [{ todoA with is_complete := false }, { todoB with is_complete := false }] ∧
    (handleBulkToggleComplete ["a", "b"] true true [todoA, todoB]).2 = false ∧
    todoB.is_complete = true := by decide

/-! ### Claim C4 -/

/-- Claim C4: after deleteFolder succeeds, every todo that referenced the
folder has folder_id = null with all other columns (in particular shared_with
and can_edit) unchanged, no todo references the folder and the folder is gone
from the collection; and in every run, failed or not, the folder record is
gone only if every todo has already been detached, because the detaching
update runs first and a failure before the delete leaves the folder in
place. -/
theorem C4_deleteFolder_detaches_then_deletes
    (db : DB) (folder : Folder) (fU fD : Bool) :
    ((deleteFolder db folder fU fD).2 = true →
      (deleteFolder db folder fU fD).1.todos =
        db.todos.map (fun t =>
          if t.folder_id = some folder.id then { t with folder_id := none } else t) ∧
      (∀ t ∈ (deleteFolder db folder fU fD).1.todos, t.folder_id ≠ some folder.id) ∧
      (deleteFolder db folder fU fD).1.todos.map
          (fun t => (t.id, t.shared_with, t.can_edit)) =
        db.todos.map (fun t => (t.id, t.shared_with, t.can_edit)) ∧
      (∀ f ∈ (deleteFolder db folder fU fD).1.folders, f.id ≠ folder.id)) ∧
    (folder.id ∈ db.folders.map (fun f => f.id) →
      folder.id ∉ (deleteFolder db folder fU fD).1.folders.map (fun f => f.id) →
      ∀ t ∈ (deleteFolder db folder fU fD).1.todos, t.folder_id ≠ some folder.id) := by
  cases fU with
  | true =>
    refine ⟨fun hsucc => by simp [deleteFolder] at hsucc, ?_⟩
    intro hin hout
    exact absurd hin (by simpa [deleteFolder] using hout)
  | false =>
    cases fD with
    | true =>
      refine ⟨fun hsucc => by simp [deleteFolder] at hsucc, ?_⟩
      intro hin hout
      exact absurd hin (by simpa [deleteFolder] using hout)
    | false =>
      have hdetach : ∀ t ∈ (deleteFolder db folder false false).1.todos,
          t.folder_id ≠ some folder.id := by
        intro t ht
        simp only [deleteFolder, if_neg, Bool.false_eq_true, ite_false] at ht
        rcases List.mem_map.mp ht with ⟨t0, _, rfl⟩
        by_cases h0 : t0.folder_id = some folder.id
        · simp [h0]
        · simp [h0]
      refine ⟨fun _ => ⟨rfl, hdetach, ?_, ?_⟩, fun _ _ => hdetach⟩
      · simp only [deleteFolder, Bool.false_eq_true, ite_false]
        rw [List.map_map]
        apply List.map_congr_left
        intro t _
        by_cases h0 : t.folder_id = some folder.id <;> simp [Function.comp, h0]
      · intro f hf
        simp only [deleteFolder, Bool.false_eq_true, ite_false] at hf
        exact of_decide_eq_true (List.mem_filter.mp hf).2

/-- Witness for C4 at a concrete input: deleting the sample folder detaches
the sample todo and removes the folder. -/
theorem C4_deleteFolder_witness :
    (∀ t ∈ (deleteFolder sampleDB sampleFolder false false).1.todos,
      t.folder_id ≠ some sampleFolder.id) ∧
    (∀ f ∈ (deleteFolder sampleDB sampleFolder false false).1.folders,
      f.id ≠ sampleFolder.id) :=
  ⟨((C4_deleteFolder_detaches_then_deletes sampleDB sampleFolder false false).1
      (by decide)).2.1,
   ((C4_deleteFolder_detaches_then_deletes sampleDB sampleFolder false false).1
      (by decide)).2.2.2⟩

/-! ### Claim C7 -/

/-- Claim C7: neither delete operation is optimistic.  A failed single delete
leaves the store unchanged and a confirmed one removes exactly the targeted
id; the bulk delete never rewrites the todos collection at all (on success
the code only clears the selection), so in particular it removes nothing
before, or without, backend confirmation, and a failed bulk delete leaves
every todo present. -/
theorem C7_delete_not_optimistic
    (id : String) (selected : List String) (fail : Bool) (store : List Todo) :
    (deleteTodo id true store).1 = store ∧
    (deleteTodo id false store).1 = store.filter (fun t => t.id ≠ id) ∧
    (handleBulkDelete selected fail store).1 = store ∧
    ((deleteTodo id fail store).2 = false → (deleteTodo id fail store).1 = store) ∧
    ((handleBulkDelete selected fail store).2 = false →
      (handleBulkDelete selected fail store).1 = store) := by
  cases fail <;> simp [deleteTodo, handleBulkDelete]

/-- Witness for C7 at a concrete input: a failed single delete keeps the
sample todo in the store. -/
theorem C7_delete_not_optimistic_witness :
    (deleteTodo "t1" true [sampleTodo]).1 = [sampleTodo] :=
  (C7_delete_not_optimistic "t1" [] true [sampleTodo]).2.2.2.1 (by decide)

/-! ### Claim C5 -/

/-- In a store whose ids are duplicate-free, the entries matching a given id
are counted exactly once when one matching entry exists. -/
theorem countP_id_eq_one (store : List Todo) (row : Todo)
    (hnd : (store.map (fun t => t.id)).Nodup)
    (hex : ∃ t, t ∈ store ∧ t.id = row.id) :
    store.countP (fun t => t.id = row.id) = 1 := by
  induction store with
  | nil => rcases hex with ⟨t, ht, _⟩; exact absurd ht (List.not_mem_nil t)
  | cons t ts ih =>
    rw [List.map_cons, List.nodup_cons] at hnd
    by_cases h : t.id = row.id
    · rw [List.countP_cons_of_pos _ _ (by simpa using h)]
      have hzero : ts.countP (fun t => t.id = row.id) = 0 := by
        rw [List.countP_eq_zero]
        intro s hs hp
        exact hnd.1 (h ▸ (of_decide_eq_true hp) ▸ List.mem_map_of_mem (fun t => t.id) hs)
      rw [hzero]
    · rw [List.countP_cons_of_neg _ _ (by simpa using h)]
      refine ih hnd.2 ?_
      rcases hex with ⟨t0, ht0, hid0⟩
      rcases List.mem_cons.mp ht0 with rfl | ht0
      · exact absurd hid0 h
      · exact ⟨t0, ht0, hid0⟩

/-- On a store of real rows, the handler run on an event whose new field
carries a full row computes exactly the insert-or-update merge of that row. -/
theorem handleTodoEvent_row (store : List Todo) (row : Todo)
    (ty : RealtimeEventType) (old : PayloadRecord) :
    handleTodoEvent (store.map PayloadRecord.row)
        { eventType := ty, new := PayloadRecord.row row, old := old } =
      (mergeTodoEvent store row).map PayloadRecord.row := by
  have hcond : ((store.map PayloadRecord.row).any fun e =>
      e.jsId = (PayloadRecord.row row).jsId) = store.any fun t => t.id = row.id := by
    induction store with
    | nil => rfl
    | cons t ts ih =>
      simp only [List.map_cons, List.any_cons, ih]
      congr 1
      simp [PayloadRecord.jsId]
  simp only [handleTodoEvent, mergeTodoEvent]
  rw [apply_ite (List.map PayloadRecord.row), hcond]
  congr 1
  · rw [List.map_map, List.map_map]
    apply List.map_congr_left
    intro t _
    by_cases h : t.id = row.id <;> simp [Function.comp_apply, PayloadRecord.jsId, h]
  · rw [List.map_append]
    rfl

/-- Claim C5: on a store of real rows, the subscription handler treats an
event carrying a row as the insert-or-update merge; when an entry with the
same id exists the merge is an in-place replacement that keeps length and
the id sequence, otherwise it appends the row at the end; the merge is
idempotent, so applying the same event twice equals applying it once, every
entry of the result that carries the id holds the payload, and over a
duplicate-free store the result of the double application has exactly one
entry with the id. -/
theorem C5_realtime_merge_idempotent (store : List Todo) (row : Todo) :
    (∀ (ty : RealtimeEventType) (old : PayloadRecord),
      handleTodoEvent (store.map PayloadRecord.row)
          { eventType := ty, new := PayloadRecord.row row, old := old } =
        (mergeTodoEvent store row).map PayloadRecord.row) ∧
    ((store.any fun t => t.id = row.id) = true →
      mergeTodoEvent store row =
        store.map (fun t => if t.id = row.id then row else t) ∧
      (mergeTodoEvent store row).length = store.length ∧
      (mergeTodoEvent store row).map (fun t => t.id) = store.map (fun t => t.id)) ∧
    ((store.any fun t => t.id = row.id) = false →
      mergeTodoEvent store row = store ++ [row]) ∧
    mergeTodoEvent (mergeTodoEvent store row) row = mergeTodoEvent store row ∧
    (∀ t ∈ mergeTodoEvent (mergeTodoEvent store row) row, t.id = row.id → t = row) ∧
    ((store.map (fun t => t.id)).Nodup →
      (mergeTodoEvent (mergeTodoEvent store row) row).countP
          (fun t => t.id = row.id) = 1) := by
  have hid : ∀ t : Todo, (if t.id = row.id then row else t).id = t.id := by
    intro t; by_cases h : t.id = row.id <;> simp [h]
  have hff : ∀ t : Todo,
      (if (if t.id = row.id then row else t).id = row.id then row
        else if t.id = row.id then row else t) = if t.id = row.id then row else t := by
    intro t; by_cases h : t.id = row.id <;> simp [h]
  have hidem : mergeTodoEvent (mergeTodoEvent store row) row = mergeTodoEvent store row := by
    by_cases hany : (store.any fun t => t.id = row.id) = true
    · have h1 : mergeTodoEvent store row =
          store.map (fun t => if t.id = row.id then row else t) := by
        simp only [mergeTodoEvent, hany, if_true]
      rcases List.any_eq_true.mp hany with ⟨t0, ht0, hp0⟩
      have ht0id : t0.id = row.id := of_decide_eq_true hp0
      have hany2 : ((mergeTodoEvent store row).any fun t => t.id = row.id) = true := by
        rw [h1]
        refine List.any_eq_true.mpr ⟨row, List.mem_map.mpr ⟨t0, ht0, by simp [ht0id]⟩, by simp⟩
      rw [h1] at hany2 ⊢
      simp only [mergeTodoEvent, hany2, if_true]
      rw [List.map_map]
      exact List.map_congr_left fun t _ => hff t
    · have hany' : (store.any fun t => t.id = row.id) = false :=
        Bool.eq_false_iff.mpr hany
      have h1 : mergeTodoEvent store row = store ++ [row] := by
        simp only [mergeTodoEvent, hany', Bool.false_eq_true, if_false]
      have hnone : ∀ t ∈ store, ¬ t.id = row.id := by
        intro t ht hp
        exact hany (List.any_eq_true.mpr ⟨t, ht, by simpa using hp⟩)
      have hany2 : ((store ++ [row]).any fun t => t.id = row.id) = true :=
        List.any_eq_true.mpr ⟨row, List.mem_append_right store (List.mem_singleton.mpr rfl),
          by simp⟩
      rw [h1]
      simp only [mergeTodoEvent, hany2, if_true]
      rw [List.map_append, List.map_singleton, if_pos rfl]
      have hmapself : store.map (fun t => if t.id = row.id then row else t) = store := by
        have := List.map_congr_left
          (fun t ht => by simp [hnone t ht] : ∀ t ∈ store,
            (fun t => if t.id = row.id then row else t) t = id t)
        rw [this, List.map_id]
      rw [hmapself]
  refine ⟨fun ty old => handleTodoEvent_row store row ty old, ?_, ?_, hidem, ?_, ?_⟩
  · intro hany
    have h1 : mergeTodoEvent store row =
        store.map (fun t => if t.id = row.id then row else t) := by
      simp only [mergeTodoEvent, hany, if_true]
    refine ⟨h1, by rw [h1, List.length_map], ?_⟩
    rw [h1, List.map_map]
    exact List.map_congr_left fun t _ => hid t
  · intro hany
    simp only [mergeTodoEvent, hany, Bool.false_eq_true, if_false]
  · rw [hidem]
    intro t ht hteq
    by_cases hany : (store.any fun t => t.id = row.id) = true
    · simp only [mergeTodoEvent, hany, if_true] at ht
      rcases List.mem_map.mp ht with ⟨t0, _, rfl⟩
      by_cases h0 : t0.id = row.id
      · rw [if_pos h0]
      · rw [if_neg h0] at hteq ⊢
        exact absurd hteq h0
    · have hany' : (store.any fun t => t.id = row.id) = false :=
        Bool.eq_false_iff.mpr hany
      simp only [mergeTodoEvent, hany', Bool.false_eq_true, if_false] at ht
      rcases List.mem_append.mp ht with ht | ht
      · exact absurd (List.any_eq_true.mpr ⟨t, ht, by simpa using hteq⟩) hany
      · exact List.mem_singleton.mp ht
  · intro hnd
    rw [hidem]
    by_cases hany : (store.any fun t => t.id = row.id) = true
    · have h1 : mergeTodoEvent store row =
          store.map (fun t => if t.id = row.id then row else t) := by
        simp only [mergeTodoEvent, hany, if_true]
      rw [h1]
      rcases List.any_eq_true.mp hany with ⟨t0, ht0, hp0⟩
      have ht0id : t0.id = row.id := of_decide_eq_true hp0
      have hcnt : (store.map (fun t => if t.id = row.id then row else t)).countP
          (fun t => t.id = row.id) = store.countP (fun t => t.id = row.id) := by
        rw [List.countP_map]
        refine List.countP_congr fun t _ => ?_
        by_cases h : t.id = row.id <;> simp [Function.comp_apply, h]
      rw [hcnt]
      exact countP_id_eq_one store row hnd ⟨t0, ht0, ht0id⟩
    · have hany' : (store.any fun t => t.id = row.id) = false :=
        Bool.eq_false_iff.mpr hany
      have h1 : mergeTodoEvent store row = store ++ [row] := by
        simp only [mergeTodoEvent, hany', Bool.false_eq_true, if_false]
      rw [h1, List.countP_append]
      have hzero : store.countP (fun t => t.id = row.id) = 0 := by
        rw [List.countP_eq_zero]
        intro t ht hp
        exact hany (List.any_eq_true.mpr ⟨t, ht, hp⟩)
      rw [hzero]
      simp [List.countP_cons]

def updatedSampleTodo : Todo :=
  { sampleTodo with title := "Milk again" }

/-- Witness for C5 at a concrete input: applying the same update event twice
to the one-element sample store leaves exactly one entry with the id. -/
theorem C5_realtime_merge_witness :
    (mergeTodoEvent (mergeTodoEvent [sampleTodo] updatedSampleTodo)
        updatedSampleTodo).countP
      (fun t => t.id = updatedSampleTodo.id) = 1 :=
  (C5_realtime_merge_idempotent [sampleTodo] updatedSampleTodo).2.2.2.2.2 (by decide)

/-! ### Claim C8 -/

/-- A realtime delete event for the sample todo, as the v2 client delivers
it: the new field is the empty object, the old field carries the removed
keys. -/
def sampleDeletePayload : RealtimePayload :=
  { eventType := RealtimeEventType.delete
    new := PayloadRecord.empty
    old := PayloadRecord.row sampleTodo }

/-- Counterexample to claim C8: processing a realtime deletion event for an
id present in the store does not remove the matching entry.  The delete
payload carries the truthy empty object in its new field, so the guard
passes; the undefined id of the empty object matches no row, so the handler
appends the empty record, and the entry with the deleted id is still
present. -/
theorem C8_delete_event_counterexample :
    handleTodoEvent [PayloadRecord.row sampleTodo] sampleDeletePayload =
      [PayloadRecord.row sampleTodo, PayloadRecord.empty] ∧
    PayloadRecord.row sampleTodo ∈
      handleTodoEvent [PayloadRecord.row sampleTodo] sampleDeletePayload := by decide

/-- Claim C8 amended: a realtime deletion event removes nothing from the
Entity Store.  Its new field is the empty object, so the truthiness guard
passes; the undefined id matches no real row, so the handler appends the
empty record when the store holds none (and rewrites existing empty records
onto themselves, leaving the store unchanged, when it holds some); every
entry of the store, in particular the one with the deleted id, is still
present afterwards. -/
theorem C8_delete_event_removes_nothing (store : List PayloadRecord)
    (payload : RealtimePayload) (hnew : payload.new = PayloadRecord.empty) :
    (∀ e ∈ store, e ∈ handleTodoEvent store payload) ∧
    handleTodoEvent store payload =
      (if (store.any fun e => e.jsId = (none : Option String)) = true then store
       else store ++ [PayloadRecord.empty]) := by
  have hself : ∀ e : PayloadRecord, e.jsId = (none : Option String) →
      e = PayloadRecord.empty := by
    intro e h
    cases e with
    | row t => simp [PayloadRecord.jsId] at h
    | empty => rfl
  have hmain : handleTodoEvent store payload =
      (if (store.any fun e => e.jsId = (none : Option String)) = true then store
       else store ++ [PayloadRecord.empty]) := by
    simp only [handleTodoEvent, hnew,
      show PayloadRecord.empty.jsId = (none : Option String) from rfl]
    by_cases hany : (store.any fun e => e.jsId = (none : Option String)) = true
    · rw [if_pos hany, if_pos hany]
      have hcongr : ∀ e ∈ store,
          (if e.jsId = (none : Option String) then PayloadRecord.empty else e) = e := by
        intro e he
        by_cases h0 : e.jsId = (none : Option String)
        · simp [h0, hself e h0]
        · simp [h0]
      calc store.map (fun e =>
              if e.jsId = (none : Option String) then PayloadRecord.empty else e)
          = store.map (fun e => e) := List.map_congr_left hcongr
        _ = store := List.map_id' store
    · rw [if_neg hany, if_neg hany]
  refine ⟨?_, hmain⟩
  intro e he
  rw [hmain]
  by_cases hany : (store.any fun e => e.jsId = (none : Option String)) = true
  · rw [if_pos hany]; exact he
  · rw [if_neg hany]; exact List.mem_append_left _ he

/-- Witness for the amended C8 at a concrete input: the sample row survives
the delete event. -/
theorem C8_delete_event_removes_nothing_witness :
    PayloadRecord.row sampleTodo ∈
      handleTodoEvent [PayloadRecord.row sampleTodo] sampleDeletePayload :=
  (C8_delete_event_removes_nothing [PayloadRecord.row sampleTodo]
      sampleDeletePayload rfl).1
    (PayloadRecord.row sampleTodo) (List.mem_singleton.mpr rfl)

/-! ### Claim C6 -/

theorem todoCompare_absent_absent (order : List String) (a b : Todo)
    (ha : jsIndexOf order a.id = -1) (hb : jsIndexOf order b.id = -1) :
    todoCompare order a b = 0 := by
  simp [todoCompare, ha, hb]

theorem todoCompare_absent_present (order : List String) (a b : Todo)
    (ha : jsIndexOf order a.id = -1) (hb : jsIndexOf order b.id ≠ -1) :
    todoCompare order a b = 1 := by
  simp [todoCompare, ha, hb]

theorem todoCompare_present_absent (order : List String) (a b : Todo)
    (ha : jsIndexOf order a.id ≠ -1) (hb : jsIndexOf order b.id = -1) :
    todoCompare order a b = -1 := by
  simp [todoCompare, ha, hb]

/-- The comparator is nonpositive exactly when the right id is absent or
both are present with the left index not larger. -/
theorem todoCompare_le_iff (order : List String) (a b : Todo) :
    todoCompare order a b ≤ 0 ↔
      (jsIndexOf order b.id = -1 ∨
        (jsIndexOf order a.id ≠ -1 ∧
          jsIndexOf order a.id ≤ jsIndexOf order b.id)) := by
  by_cases hA : jsIndexOf order a.id = -1 <;>
    by_cases hB : jsIndexOf order b.id = -1 <;>
      simp [todoCompare, hA, hB] <;> omega

theorem orderedInsert_skip (r : Todo → Todo → Prop) [DecidableRel r] (x : Todo) :
    ∀ (P B : List Todo), (∀ p ∈ P, ¬ r x p) →
      List.orderedInsert r x (P ++ B) = P ++ List.orderedInsert r x B := by
  intro P
  induction P with
  | nil => intro B _; rfl
  | cons p P ih =>
    intro B h
    rw [List.cons_append]
    simp only [List.orderedInsert, if_neg (h p (List.mem_cons_self p P))]
    rw [ih B (fun q hq => h q (List.mem_cons_of_mem p hq)), List.cons_append]

theorem orderedInsert_front (r : Todo → Todo → Prop) [DecidableRel r] (x : Todo) :
    ∀ (A : List Todo), (∀ a ∈ A, r x a) → List.orderedInsert r x A = x :: A
  | [], _ => rfl
  | a :: A, h => by
    simp only [List.orderedInsert, if_pos (h a (List.mem_cons_self a A))]

theorem orderedInsert_append (r : Todo → Todo → Prop) [DecidableRel r] (x : Todo) :
    ∀ (P A : List Todo), (∀ a ∈ A, r x a) →
      List.orderedInsert r x (P ++ A) = List.orderedInsert r x P ++ A := by
  intro P
  induction P with
  | nil =>
    intro A h
    rw [List.nil_append, orderedInsert_front r x A h]
    rfl
  | cons p P ih =>
    intro A h
    by_cases hxp : r x p
    · rw [List.cons_append]
      simp only [List.orderedInsert, if_pos hxp]
      rw [List.cons_append, List.cons_append]
    · rw [List.cons_append]
      simp only [List.orderedInsert, if_neg hxp]
      rw [ih A h, List.cons_append]

/-- The sort by the comparator keeps every todo absent from the order list
after all present todos, in input order; the present part is the sort of the
present todos. -/
theorem sortTodos_partition (order : List String) (l : List Todo) :
    sortTodos order l =
      sortTodos order (l.filter fun t => jsIndexOf order t.id != -1) ++
        l.filter (fun t => jsIndexOf order t.id == -1) := by
  induction l with
  | nil => rfl
  | cons x xs ih =>
    have hstep : sortTodos order (x :: xs) =
        List.orderedInsert (fun a b => todoCompare order a b ≤ 0) x
          (sortTodos order xs) := rfl
    by_cases hx : jsIndexOf order x.id = -1
    · have hskip : ∀ p ∈ sortTodos order (xs.filter fun t => jsIndexOf order t.id != -1),
          ¬ todoCompare order x p ≤ 0 := by
        intro p hp
        rw [sortTodos] at hp
        have hpmem : p ∈ xs.filter fun t => jsIndexOf order t.id != -1 :=
          (List.perm_insertionSort _ _).subset hp
        have hppres : jsIndexOf order p.id ≠ -1 := by
          simpa using (List.mem_filter.mp hpmem).2
        rw [todoCompare_absent_present order x p hx hppres]
        omega
      have hfront : ∀ a ∈ xs.filter (fun t => jsIndexOf order t.id == -1),
          todoCompare order x a ≤ 0 := by
        intro a ha
        have haabs : jsIndexOf order a.id = -1 := by
          simpa using (List.mem_filter.mp ha).2
        rw [todoCompare_absent_absent order x a hx haabs]
      rw [hstep, ih,
        List.filter_cons_of_neg (by simp [hx]),
        List.filter_cons_of_pos (by simp [hx]),
        orderedInsert_skip _ x _ _ hskip, orderedInsert_front _ x _ hfront]
    · rw [hstep, ih,
        List.filter_cons_of_pos (by simp [hx]),
        List.filter_cons_of_neg (by simp [hx])]
      rw [orderedInsert_append _ x _ _ ?_]
      · rfl
      · intro a ha
        have haabs : jsIndexOf order a.id = -1 := by
          simpa using (List.mem_filter.mp ha).2
        rw [todoCompare_present_absent order x a hx haabs]
        omega

def todoC : Todo :=
  { oldTodo with id := "c", title := "C" }

def todoD : Todo :=
  { oldTodo with id := "d", title := "D" }

def todoE : Todo :=
  { oldTodo with id := "e", title := "E" }

/-- Claim C6: the rendering sort orders todos by the index of their id in
the active scope order list (the result is sorted under the comparator, and
the comparator returns 0 when both ids are absent, so the stable sort keeps
the original relative order of absent entries, which all land after the
present ones); concretely, sorting [c, a, b] against the root order
[a, b, c] yields [a, b, c], and absent todos d and e land after a, b, c in
their original relative order. -/
theorem C6_sort_application (order : List String) (l : List Todo) (a b : Todo) :
    (jsIndexOf order a.id = -1 → jsIndexOf order b.id = -1 →
      todoCompare order a b = 0) ∧
    List.Sorted (fun a b => todoCompare order a b ≤ 0) (sortTodos order l) ∧
    sortTodos order l =
      sortTodos order (l.filter fun t => jsIndexOf order t.id != -1) ++
        l.filter (fun t => jsIndexOf order t.id == -1) ∧
    sortTodos (scopeOrder [("root", ["a", "b", "c"])] none)
        [todoC, todoA, todoB] = [todoA, todoB, todoC] ∧
    sortTodos (scopeOrder [("root", ["a", "b", "c"])] none)
        [todoC, todoD, todoA, todoE, todoB] =
      [todoA, todoB, todoC, todoD, todoE] := by
  refine ⟨todoCompare_absent_absent order a b, ?_, sortTodos_partition order l,
    by decide, by decide⟩
  haveI htot : IsTotal Todo (fun a b => todoCompare order a b ≤ 0) := by
    refine ⟨fun a b => ?_⟩
    rw [todoCompare_le_iff, todoCompare_le_iff]
    omega
  haveI htrans : IsTrans Todo (fun a b => todoCompare order a b ≤ 0) := by
    refine ⟨fun a b c => ?_⟩
    rw [todoCompare_le_iff, todoCompare_le_iff, todoCompare_le_iff]
    omega
  exact List.sorted_insertionSort _ l

/-- Witness for C6 at a concrete input: the comparator returns 0 on two
todos absent from the order list. -/
theorem C6_sort_application_witness :
    todoCompare ["a", "b", "c"] todoD todoE = 0 :=
  (C6_sort_application ["a", "b", "c"] [] todoD todoE).1 (by decide) (by decide)

/-! ### Claim C9 -/

/-- A preferences row holding an unrelated key besides todoOrder. -/
def richPrefRow : PrefRow :=
  { user_id := "u1"
    preferences :=
      [("todoOrder", PrefValue.orderMap [("root", ["t1"])]),
       ("theme", PrefValue.other "dark")] }

/-- Counterexample to claim C9: the order-persistence upsert replaces the
whole preferences document with the object holding only the todoOrder key,
so the unrelated theme key present before the write is gone afterwards. -/
theorem C9_upsert_clobbers_counterexample :
    richPrefRow.preferences.lookup "theme" = some (PrefValue.other "dark") ∧
    (saveTodoOrder [richPrefRow] "u1" [("root", ["t2", "t1"])]).map
        (fun r => r.preferences) =
      [[("todoOrder", PrefValue.orderMap [("root", ["t2", "t1"])])]] ∧
    (saveTodoOrder [richPrefRow] "u1" [("root", ["t2", "t1"])]).map
        (fun r => r.preferences.lookup "theme") = [none] := by decide

/-- Claim C9 amended: the order-persistence write upserts the row so that
the preferences document of the user becomes exactly the object with the
single key todoOrder mapped to the new map; keys previously present in the
document are not preserved. -/
theorem C9_saveTodoOrder_replaces_document
    (tbl : List PrefRow) (userId : String)
    (newOrder : List (String × List String)) :
    ∀ r ∈ saveTodoOrder tbl userId newOrder, r.user_id = userId →
      r.preferences = [("todoOrder", PrefValue.orderMap newOrder)] := by
  intro r hr hid
  rw [saveTodoOrder, upsertRow] at hr
  by_cases hany : (tbl.any fun r => r.user_id = userId) = true
  · rw [if_pos (by simpa using hany)] at hr
    rcases List.mem_map.mp hr with ⟨r0, _, rfl⟩
    by_cases h0 : r0.user_id = userId
    · rw [if_pos (by simpa using h0)]
    · rw [if_neg (by simpa using h0)] at hid ⊢
      exact absurd hid h0
  · rw [if_neg (by simpa using hany)] at hr
    rcases List.mem_append.mp hr with hr | hr
    · exact absurd (List.any_eq_true.mpr ⟨r, hr, by simpa using hid⟩) hany
    · rw [List.mem_singleton.mp hr]

/-- Witness for the amended C9 at a concrete input. -/
theorem C9_saveTodoOrder_replaces_document_witness :
    ({ user_id := "u1"
       preferences := [("todoOrder", PrefValue.orderMap [("root", ["t2", "t1"])])]
     } : PrefRow).preferences =
      [("todoOrder", PrefValue.orderMap [("root", ["t2", "t1"])])] :=
  C9_saveTodoOrder_replaces_document [richPrefRow] "u1" [("root", ["t2", "t1"])]
    { user_id := "u1"
      preferences := [("todoOrder", PrefValue.orderMap [("root", ["t2", "t1"])])] }
    (by decide) rfl

/-! ### Claim C10 -/

/-- Claim C10: every optimistic apply and every rollback step of the
mutation pipeline maps over the collection and keeps each entry id in place,
so the sequence of todo identifiers in the Entity Store, and with it the set
of identifiers and their relative order, is unchanged by each step; no step
inserts, removes, duplicates or reorders entries. -/
theorem C10_steps_preserve_id_sequence
    (todo : Todo) (selected : List String) (folderId : Option String)
    (complete : Bool) (l : List Todo) :
    (toggleApply todo l).map (fun t => t.id) = l.map (fun t => t.id) ∧
    (toggleRollback todo l).map (fun t => t.id) = l.map (fun t => t.id) ∧
    (updateApply todo l).map (fun t => t.id) = l.map (fun t => t.id) ∧
    (updateRollback todo l).map (fun t => t.id) = l.map (fun t => t.id) ∧
    (bulkMoveApply selected folderId l).map (fun t => t.id) = l.map (fun t => t.id) ∧
    (bulkMoveRollback selected l).map (fun t => t.id) = l.map (fun t => t.id) ∧
    (bulkCompleteApply selected complete l).map (fun t => t.id) = l.map (fun t => t.id) ∧
    (bulkCompleteRollback selected complete l).map (fun t => t.id) =
      l.map (fun t => t.id) := by
  refine ⟨?_, ?_, ?_, ?_, ?_, ?_, ?_, ?_⟩ <;>
    · first
      | (rw [toggleApply, List.map_map]
         exact List.map_congr_left fun t _ => by
           by_cases h : t.id = todo.id <;> simp [Function.comp_apply, h])
      | (rw [toggleRollback, List.map_map]
         exact List.map_congr_left fun t _ => by
           by_cases h : t.id = todo.id <;> simp [Function.comp_apply, h])
      | (rw [updateApply, List.map_map]
         exact List.map_congr_left fun t _ => by
           by_cases h : t.id = todo.id <;> simp [Function.comp_apply, h])
      | (rw [updateRollback, List.map_map]
         exact List.map_congr_left fun t _ => by
           by_cases h : t.id = todo.id <;> simp [Function.comp_apply, h])
      | (rw [bulkMoveApply, List.map_map]
         exact List.map_congr_left fun t _ => by
           by_cases h : t.id ∈ selected <;> simp [Function.comp_apply, h])
      | (rw [bulkMoveRollback, List.map_map]
         exact List.map_congr_left fun t _ => by
           by_cases h : t.id ∈ selected <;> simp [Function.comp_apply, h])
      | (rw [bulkCompleteApply, List.map_map]
         exact List.map_congr_left fun t _ => by
           by_cases h : t.id ∈ selected <;> simp [Function.comp_apply, h])
      | (rw [bulkCompleteRollback, List.map_map]
         exact List.map_congr_left fun t _ => by
           by_cases h : t.id ∈ selected <;> simp [Function.comp_apply, h])
